import Mathlib

/-!
Shallow embedding of `src/source/common/orca/orca_parser.cc` (Envoy ORCA
load-report parsing).  Strings are modelled as Lean `String`s (lists of
characters underneath); the `absl::Status` error codes that the parser can
produce are an inductive type; the protobuf `OrcaLoadReport` message is a
record whose double fields are modelled as exact rationals; the external
JSON / base64 / binary-protobuf codecs are abstract parameters of the
dispatcher.  Functions keep the source's names.
-/

deriving instance DecidableEq for Except

namespace Envoy
namespace Orca

/-- The `absl::Status` values produced by the ORCA parser (the error code
together with its message). -/
inductive AbslStatus where
  | invalidArgument (msg : String)
  | alreadyExists (msg : String)
  | notFound (msg : String)
deriving DecidableEq, Repr

/-- `xds.data.orca.v3.OrcaLoadReport`: five fixed double fields (default 0)
plus the dynamic `named_metrics` map, modelled as an association list with
unique keys.  Doubles are modelled as exact rationals. -/
structure OrcaLoadReport where
  cpu_utilization : ℚ := 0
  mem_utilization : ℚ := 0
  application_utilization : ℚ := 0
  eps : ℚ := 0
  rps_fractional : ℚ := 0
  named_metrics : List (String × ℚ) := []
deriving DecidableEq, Repr

/-- `kEndpointLoadMetricsHeader` from `orca_parser.h`. -/
def kEndpointLoadMetricsHeader : String := "x-endpoint-load-metrics"

/-- `kEndpointLoadMetricsHeaderBin` from `orca_parser.h`. -/
def kEndpointLoadMetricsHeaderBin : String := "x-endpoint-load-metrics-bin"

/-- `kEndpointLoadMetricsHeaderJson` from `orca_parser.h`. -/
def kEndpointLoadMetricsHeaderJson : String := "x-endpoint-load-metrics-json"

/-- `absl::ascii_isspace`: the six ASCII whitespace characters. -/
def isAsciiSpace (c : Char) : Bool :=
  c == ' ' || c == '\t' || c == '\n' || c == '\x0b' || c == '\x0c' || c == '\r'

/-- `absl::StripAsciiWhitespace` on a character list: drop leading and
trailing ASCII whitespace. -/
def trimAscii (cs : List Char) : List Char :=
  ((cs.dropWhile isAsciiSpace).reverse.dropWhile isAsciiSpace).reverse

/-- Split a character list at the FIRST occurrence of `sep`: returns the
part before it and, when `sep` occurs, the part after it (which may itself
contain further occurrences of `sep`). -/
def splitFirstChar (sep : Char) : List Char → List Char × Option (List Char)
  | [] => ([], none)
  | c :: cs =>
    if c = sep then ([], some cs)
    else
      let r := splitFirstChar sep cs
      (c :: r.1, r.2)

/-- Split a character list at EVERY occurrence of `sep` (the pieces of
`absl::StrSplit` with unlimited splits). -/
def splitAllChar (sep : Char) : List Char → List (List Char)
  | [] => [[]]
  | c :: cs =>
    if c = sep then [] :: splitAllChar sep cs
    else
      match splitAllChar sep cs with
      | [] => [[c]]
      | p :: ps => (c :: p) :: ps

/-- `acc` is the running digit value, `n` the number of digits consumed. -/
def takeDigits : List Char → Nat → Nat → Nat × Nat × List Char
  | [], acc, n => (acc, n, [])
  | c :: cs, acc, n =>
    if c.isDigit then takeDigits cs (acc * 10 + (c.toNat - 48)) (n + 1)
    else (acc, n, c :: cs)

/-- Modelled from the spec: `strings::safe_strtod` (the numeric parser from
`strings/numbers.h`) is not under `src/`.  Per the spec it parses the
value-string as a finite 64-bit floating-point number with a strict numeric
grammar that must consume the entire string: optional sign, decimal digits
with an optional fraction (at least one digit overall), and an optional
exponent part; non-finite spellings and partially-consumed inputs are
rejected.  Values are modelled as exact rationals. -/
def safe_strtod (s : String) : Option ℚ :=
  let cs := s.data
  let signAndRest : Bool × List Char :=
    match cs with
    | '+' :: r => (false, r)
    | '-' :: r => (true, r)
    | _ => (false, cs)
  let neg := signAndRest.1
  let intPart := takeDigits signAndRest.2 0 0
  let fracPart : Nat × Nat × List Char :=
    match intPart.2.2 with
    | '.' :: r => takeDigits r 0 0
    | _ => (0, 0, intPart.2.2)
  if intPart.2.1 + fracPart.2.1 = 0 then none
  else
    let num0 : Nat := intPart.1 * 10 ^ fracPart.2.1 + fracPart.1
    let den0 : Nat := 10 ^ fracPart.2.1
    let finish : Nat → Nat → Option ℚ := fun num den =>
      some (mkRat (if neg then -(num : Int) else (num : Int)) den)
    match fracPart.2.2 with
    | [] => finish num0 den0
    | e :: r =>
      if e = 'e' ∨ e = 'E' then
        let expSignAndRest : Bool × List Char :=
          match r with
          | '+' :: rr => (true, rr)
          | '-' :: rr => (false, rr)
          | _ => (true, r)
        let expPart := takeDigits expSignAndRest.2 0 0
        if expPart.2.1 = 0 then none
        else
          match expPart.2.2 with
          | [] =>
            if expSignAndRest.1 then finish (num0 * 10 ^ expPart.1) den0
            else finish num0 (den0 * 10 ^ expPart.1)
          | _ => none
      else none

namespace Http
namespace HeaderUtility

/-- Modelled from the spec: `Envoy::Http::HeaderUtility::parseCommaDelimitedHeader`
(per-value tokenizer) is not under `src/`; the spec says each value is split
on commas, whitespace around tokens is trimmed, and empty tokens are
skipped. -/
def parseCommaDelimitedHeader (value : String) : List String :=
  ((((splitAllChar ',' value.data).map trimAscii).filter
      (fun t => !t.isEmpty)).map String.mk)

end HeaderUtility
end Http

/-- The anonymous-namespace `parseCommaDelimitedHeader` of `orca_parser.cc`:
iterate over the physical occurrences of the header (`entry[i]`), tokenize
each value, and append the tokens at the end of the accumulated vector. -/
def parseCommaDelimitedHeader (entry : List String) : List String :=
  entry.foldl (fun values v => values ++ Http.HeaderUtility.parseCommaDelimitedHeader v) []

/-- `absl::StrSplit(value, absl::MaxSplits(':', 1), absl::SkipWhitespace())`
converted to a `std::pair`: split at the first colon only, discard pieces
that are empty or whitespace-only (`SkipWhitespace` is a filter predicate,
it does not modify the kept pieces), and let missing pieces default to the
empty string. -/
def splitColonEntry (value : String) : String × String :=
  let pieces : List (List Char) :=
    match splitFirstChar ':' value.data with
    | (a, none) => [a]
    | (a, some b) => [a, b]
  match pieces.filter (fun p => !(trimAscii p).isEmpty) with
  | [] => ("", "")
  | [x] => (String.mk x, "")
  | x :: y :: _ => (String.mk x, String.mk y)

/-- `tryCopyNamedMetricToOrcaLoadReport`: reject the empty key, then
`try_emplace` into `named_metrics` (failure when the key is already
present). -/
def tryCopyNamedMetricToOrcaLoadReport (metric_name : String) (metric_value : ℚ)
    (r : OrcaLoadReport) : Except AbslStatus OrcaLoadReport :=
  if metric_name = "" then
    .error (.invalidArgument "named metric key is empty.")
  else if metric_name ∈ r.named_metrics.map Prod.fst then
    .error (.alreadyExists
      (kEndpointLoadMetricsHeader ++ " contains duplicate named metric: " ++ metric_name))
  else
    .ok { r with named_metrics := r.named_metrics ++ [(metric_name, metric_value)] }

/-- `metric_name.starts_with("named_metrics.")`. -/
def startsWithChars : List Char → List Char → Bool
  | [], _ => true
  | _ :: _, [] => false
  | p :: ps, c :: cs => p == c && startsWithChars ps cs

/-- `metric_name.substr(metric_name.find('.') + 1)`: everything after the
first `'.'`; when there is no `'.'`, `find` yields `npos` and
`npos + 1` wraps to `0`, so the whole string is returned. -/
def substrAfterFirstDot (s : String) : String :=
  match splitFirstChar '.' s.data with
  | (_, some b) => String.mk b
  | (_, none) => s

/-- `tryCopyMetricToOrcaLoadReport`: empty-name and empty-value checks, the
`safe_strtod` validation, then the prefix routing to the named-metric path
or the five fixed fields. -/
def tryCopyMetricToOrcaLoadReport (metric_name metric_value : String)
    (r : OrcaLoadReport) : Except AbslStatus OrcaLoadReport :=
  if metric_name = "" then
    .error (.invalidArgument "metric names cannot be empty strings")
  else if metric_value = "" then
    .error (.invalidArgument "metric values cannot be empty strings")
  else
    match safe_strtod metric_value with
    | none =>
      .error (.invalidArgument
        ("unable to parse custom backend load metric value({}): "
          ++ metric_name ++ metric_value))
    | some value =>
      if startsWithChars "named_metrics.".data metric_name.data then
        tryCopyNamedMetricToOrcaLoadReport (substrAfterFirstDot metric_name) value r
      else if metric_name = "cpu_utilization" then
        .ok { r with cpu_utilization := value }
      else if metric_name = "mem_utilization" then
        .ok { r with mem_utilization := value }
      else if metric_name = "application_utilization" then
        .ok { r with application_utilization := value }
      else if metric_name = "eps" then
        .ok { r with eps := value }
      else if metric_name = "rps_fractional" then
        .ok { r with rps_fractional := value }
      else
        .error (.invalidArgument ("unsupported metric name: " ++ metric_name))

/-- The token loop of `tryParseNativeHttpEncoded`: `seen` is the
`metric_names` set of names already assigned; the duplicate check runs
before `tryCopyMetricToOrcaLoadReport`, and the name is inserted after a
successful copy. -/
def goTokens : List String → List String → OrcaLoadReport →
    Except AbslStatus (List String × OrcaLoadReport)
  | [], seen, r => .ok (seen, r)
  | v :: vs, seen, r =>
    let entry := splitColonEntry v
    if entry.1 ∈ seen then
      .error (.alreadyExists
        (kEndpointLoadMetricsHeader ++ " contains duplicate metric: " ++ entry.1))
    else
      match tryCopyMetricToOrcaLoadReport entry.1 entry.2 r with
      | .error e => .error e
      | .ok r2 => goTokens vs (entry.1 :: seen) r2

/-- `tryParseNativeHttpEncoded`: reject an absent header, flatten the
comma-delimited occurrences, then run the duplicate-checking token loop. -/
def tryParseNativeHttpEncoded (header : List String) (r : OrcaLoadReport) :
    Except AbslStatus OrcaLoadReport :=
  if header.isEmpty then .error (.invalidArgument "header is empty.")
  else
    match goTokens (parseCommaDelimitedHeader header) [] r with
    | .error e => .error e
    | .ok sr => .ok sr.2

/-- `parseOrcaLoadReportHeaders`.  The header map is modelled as a function
from (lower-case) header key to the list of physical occurrences of that
key; the external JSON codec (`JsonStringToMessage` with the fixed strict
options), base64 decoder and binary deserializer (`ParseFromString`) are
abstract parameters.  An absent key yields the empty list (`GetResult`
empty). -/
def parseOrcaLoadReportHeaders
    (jsonCodec : String → Except AbslStatus OrcaLoadReport)
    (base64Decode : String → String)
    (binDeserialize : String → Option OrcaLoadReport)
    (headers : String → List String) : Except AbslStatus OrcaLoadReport :=
  let load_metrics_native_http := headers kEndpointLoadMetricsHeader
  let load_metrics_json := headers kEndpointLoadMetricsHeaderJson
  let load_metrics_bin := headers kEndpointLoadMetricsHeaderBin
  if load_metrics_native_http = [] ∧ load_metrics_json = [] ∧ load_metrics_bin = [] then
    .error (.notFound "no ORCA data sent from the backend")
  else if (load_metrics_native_http ≠ [] ∧ load_metrics_json ≠ []) ∨
          (load_metrics_native_http ≠ [] ∧ load_metrics_bin ≠ []) ∨
          (load_metrics_json ≠ [] ∧ load_metrics_bin ≠ []) then
    .error (.invalidArgument "more than one ORCA header found")
  else
    let step1 : Except AbslStatus OrcaLoadReport :=
      if load_metrics_native_http = [] then .ok {}
      else tryParseNativeHttpEncoded load_metrics_native_http {}
    match step1 with
    | .error e => .error e
    | .ok lr1 =>
      let step2 : Except AbslStatus OrcaLoadReport :=
        match load_metrics_json with
        | [] => .ok lr1
        | v :: _ => jsonCodec v
      match step2 with
      | .error e => .error e
      | .ok lr2 =>
        match load_metrics_bin with
        | [] => .ok lr2
        | v :: _ =>
          match binDeserialize (base64Decode v) with
          | some lr3 => .ok lr3
          | none =>
            .error (.invalidArgument
              ("unable to parse binaryheader to OrcaLoadReport: " ++ v))

/-! ### Helper lemmas -/

lemma isEmpty_false_of_ne_nil {l : List Char} (h : l ≠ []) : l.isEmpty = false := by
  cases l with
  | nil => exact absurd rfl h
  | cons a l => rfl

lemma splitFirstChar_of_not_mem (sep : Char) (a : List Char) (h : sep ∉ a) :
    splitFirstChar sep a = (a, none) := by
  induction a with
  | nil => rfl
  | cons c cs ih =>
    have hc : ¬ c = sep := fun hceq => h (hceq ▸ List.mem_cons_self c cs)
    have hcs : sep ∉ cs := fun hm => h (List.mem_cons_of_mem c hm)
    simp [splitFirstChar, hc, ih hcs]

lemma splitFirstChar_append (sep : Char) (a b : List Char) (h : sep ∉ a) :
    splitFirstChar sep (a ++ sep :: b) = (a, some b) := by
  induction a with
  | nil => simp [splitFirstChar]
  | cons c cs ih =>
    have hc : ¬ c = sep := fun hceq => h (hceq ▸ List.mem_cons_self c cs)
    have hcs : sep ∉ cs := fun hm => h (List.mem_cons_of_mem c hm)
    simp [splitFirstChar, hc, ih hcs]

lemma string_data_append (s t : String) : (s ++ t).data = s.data ++ t.data := by
  cases s
  cases t
  rfl

lemma string_mk_data (s : String) : String.mk s.data = s := by
  cases s
  rfl

lemma safe_strtod_empty : safe_strtod "" = none := rfl

lemma ne_empty_of_safe_strtod {value : String} {q : ℚ}
    (h : safe_strtod value = some q) : value ≠ "" := by
  intro hv
  rw [hv, safe_strtod_empty] at h
  exact Option.noConfusion h

lemma startsWithChars_append_self (p cs : List Char) :
    startsWithChars p (p ++ cs) = true := by
  induction p with
  | nil => rfl
  | cons c rest ih => simp [startsWithChars, ih]

/-! ### Claim C1 -/

/-- Claim C1, counterexample: in the plain-text path the halves of the
colon split are NOT trimmed.  Decoding the single token
`"cpu_utilization :0.5"` keeps the trailing space in the metric name, so
the decoder rejects it as an unsupported metric name instead of assigning
`cpu_utilization` as the claim's trimming would imply. -/
theorem claim1_counterexample :
    splitColonEntry "cpu_utilization :0.5" = ("cpu_utilization ", "0.5") ∧
    ("cpu_utilization " : String) ≠ "cpu_utilization" ∧
    tryParseNativeHttpEncoded ["cpu_utilization :0.5"] {} =
      .error (.invalidArgument "unsupported metric name: cpu_utilization ") := by
  refine ⟨rfl, by decide, rfl⟩

/-- Claim C1 (amended): each token is split on the first colon only — a
value containing further colons is preserved verbatim after the first
separator — but the two halves are used verbatim, NOT trimmed; pieces that
are empty or whitespace-only are skipped (rather than trimmed) when the
pair is formed. -/
theorem claim1_amended (a b : List Char) (hc : ':' ∉ a)
    (ha : trimAscii a ≠ []) (hb : trimAscii b ≠ []) :
    splitColonEntry (String.mk (a ++ ':' :: b)) = (String.mk a, String.mk b) := by
  unfold splitColonEntry
  have hsplit : splitFirstChar ':' (String.mk (a ++ ':' :: b)).data = (a, some b) :=
    splitFirstChar_append ':' a b hc
  rw [hsplit]
  simp [List.filter, isEmpty_false_of_ne_nil ha, isEmpty_false_of_ne_nil hb]

/-- Claim C1 (amended), witness at a concrete input: the second half keeps
both its inner colon and its untrimmed leading space. -/
theorem claim1_amended_witness :
    splitColonEntry (String.mk ("cpu".data ++ ':' :: " 1:2".data)) =
      (String.mk "cpu".data, String.mk " 1:2".data) :=
  claim1_amended "cpu".data " 1:2".data (by decide) (by decide) (by decide)

/-! ### Claim C8 -/

/-- Claim C8: decoding the plain-text value
`"cpu_utilization:0.5,mem_utilization:0.7"` succeeds with
`cpu_utilization = 0.5`, `mem_utilization = 0.7`, the other fixed fields at
their default zero, and `named_metrics` empty. -/
theorem claim8_concrete_decode :
    tryParseNativeHttpEncoded ["cpu_utilization:0.5,mem_utilization:0.7"] {} =
      .ok { cpu_utilization := mkRat 1 2, mem_utilization := mkRat 7 10,
            application_utilization := 0, eps := 0, rps_fractional := 0,
            named_metrics := [] } := by
  decide

/-! ### Claims C2 and C4: encoding selection -/

/-- Claim C2: whenever two or three of the keys `x-endpoint-load-metrics`,
`x-endpoint-load-metrics-json`, `x-endpoint-load-metrics-bin` are
simultaneously present (non-empty) — regardless of the associated values
and of the external codecs — `parseOrcaLoadReportHeaders` fails with
`InvalidArgument`; no priority order among the encodings is applied. -/
theorem claim2_multiple_formats
    (jsonCodec : String → Except AbslStatus OrcaLoadReport)
    (base64Decode : String → String)
    (binDeserialize : String → Option OrcaLoadReport)
    (headers : String → List String)
    (h : (headers kEndpointLoadMetricsHeader ≠ [] ∧ headers kEndpointLoadMetricsHeaderJson ≠ []) ∨
         (headers kEndpointLoadMetricsHeader ≠ [] ∧ headers kEndpointLoadMetricsHeaderBin ≠ []) ∨
         (headers kEndpointLoadMetricsHeaderJson ≠ [] ∧ headers kEndpointLoadMetricsHeaderBin ≠ [])) :
    parseOrcaLoadReportHeaders jsonCodec base64Decode binDeserialize headers =
      .error (.invalidArgument "more than one ORCA header found") := by
  have hne : ¬ (headers kEndpointLoadMetricsHeader = [] ∧
      headers kEndpointLoadMetricsHeaderJson = [] ∧
      headers kEndpointLoadMetricsHeaderBin = []) := by
    rintro ⟨h1, h2, h3⟩
    rcases h with ⟨ha, hb⟩ | ⟨ha, hb⟩ | ⟨ha, hb⟩
    · exact ha h1
    · exact ha h1
    · exact ha h2
  simp only [parseOrcaLoadReportHeaders]
  rw [if_neg hne, if_pos h]

/-- Claim C2, witness: all three keys present. -/
theorem claim2_multiple_formats_witness :
    parseOrcaLoadReportHeaders (fun _ => .error (.invalidArgument "json"))
      (fun s => s) (fun _ => none) (fun _ => ["a"]) =
      .error (.invalidArgument "more than one ORCA header found") :=
  claim2_multiple_formats _ _ _ _ (Or.inl ⟨by decide, by decide⟩)

/-- Claim C4: when none of the three keys is present (non-empty),
`parseOrcaLoadReportHeaders` fails with `NotFound`. -/
theorem claim4_no_header_not_found
    (jsonCodec : String → Except AbslStatus OrcaLoadReport)
    (base64Decode : String → String)
    (binDeserialize : String → Option OrcaLoadReport)
    (headers : String → List String)
    (h1 : headers kEndpointLoadMetricsHeader = [])
    (h2 : headers kEndpointLoadMetricsHeaderJson = [])
    (h3 : headers kEndpointLoadMetricsHeaderBin = []) :
    parseOrcaLoadReportHeaders jsonCodec base64Decode binDeserialize headers =
      .error (.notFound "no ORCA data sent from the backend") := by
  simp only [parseOrcaLoadReportHeaders]
  rw [if_pos ⟨h1, h2, h3⟩]

/-- Claim C4, witness: an empty header map. -/
theorem claim4_no_header_not_found_witness :
    parseOrcaLoadReportHeaders (fun _ => .error (.invalidArgument "json"))
      (fun s => s) (fun _ => none) (fun _ => []) =
      .error (.notFound "no ORCA data sent from the backend") :=
  claim4_no_header_not_found _ _ _ _ rfl rfl rfl

/-! ### Claim C5: numeric validation in the Metric Assigner -/

/-- Claim C5: the Metric Assigner validates the value-string with
`safe_strtod` (modelled from the spec as a strict finite-number grammar
that must consume the entire string); when that parse fails it returns
`InvalidArgument` naming the metric and the unparsable text. -/
theorem claim5_unparsable_value (metric_name metric_value : String)
    (r : OrcaLoadReport) (hn : metric_name ≠ "") (hv : metric_value ≠ "")
    (hfail : safe_strtod metric_value = none) :
    tryCopyMetricToOrcaLoadReport metric_name metric_value r =
      .error (.invalidArgument
        ("unable to parse custom backend load metric value({}): "
          ++ metric_name ++ metric_value)) := by
  simp only [tryCopyMetricToOrcaLoadReport]
  rw [if_neg hn, if_neg hv, hfail]

/-- Claim C5, witness: `"cpu_utilization:notanumber"`-style value. -/
theorem claim5_unparsable_value_witness :
    tryCopyMetricToOrcaLoadReport "cpu_utilization" "notanumber" {} =
      .error (.invalidArgument
        "unable to parse custom backend load metric value({}): cpu_utilizationnotanumber") :=
  claim5_unparsable_value "cpu_utilization" "notanumber" {}
    (by decide) (by decide) rfl

/-! ### Claim C6: the named-metric path -/

/-- Claim C6: a name with the `named_metrics.` prefix is stripped up to and
including the first `.`; an empty remaining key yields `InvalidArgument`, a
key already present in `named_metrics` yields `AlreadyExists`, and
otherwise the stripped key is inserted with the parsed value. -/
theorem claim6_named_metric (rest value : String) (q : ℚ) (r : OrcaLoadReport)
    (hval : safe_strtod value = some q) :
    tryCopyMetricToOrcaLoadReport ("named_metrics." ++ rest) value r =
      (if rest = "" then
        .error (.invalidArgument "named metric key is empty.")
       else if rest ∈ r.named_metrics.map Prod.fst then
        .error (.alreadyExists
          (kEndpointLoadMetricsHeader ++ " contains duplicate named metric: " ++ rest))
       else
        .ok { r with named_metrics := r.named_metrics ++ [(rest, q)] }) := by
  have hdata : ("named_metrics." ++ rest).data = "named_metrics".data ++ '.' :: rest.data := by
    rw [string_data_append]
    have h14 : "named_metrics.".data = "named_metrics".data ++ ['.'] := by decide
    rw [h14, List.append_assoc]
    rfl
  have hne : ("named_metrics." ++ rest) ≠ "" := by
    intro h
    have hd : ("named_metrics." ++ rest).data = ([] : List Char) := by rw [h]
    rw [hdata] at hd
    simp at hd
  have hvne : value ≠ "" := ne_empty_of_safe_strtod hval
  have hsw : startsWithChars "named_metrics.".data ("named_metrics." ++ rest).data = true := by
    rw [string_data_append]
    exact startsWithChars_append_self _ _
  have hsub : substrAfterFirstDot ("named_metrics." ++ rest) = rest := by
    unfold substrAfterFirstDot
    rw [hdata, splitFirstChar_append '.' _ _ (by decide)]
  simp only [tryCopyMetricToOrcaLoadReport]
  rw [if_neg hne, if_neg hvne, hval]
  simp only [hsw, if_true, hsub, tryCopyNamedMetricToOrcaLoadReport]

/-- Claim C6, witness: `"named_metrics.foo:1.5"` inserts `foo ↦ 1.5`. -/
theorem claim6_named_metric_witness :
    tryCopyMetricToOrcaLoadReport "named_metrics.foo" "1.5" {} =
      .ok { named_metrics := [("foo", mkRat 3 2)] } :=
  (claim6_named_metric "foo" "1.5" (mkRat 3 2) {} (by decide)).trans (by decide)

/-! ### Claim C7: unsupported metric names -/

/-- Claim C7: a name without the `named_metrics.` prefix that matches none
of the five fixed field names is rejected with `InvalidArgument`
("unsupported metric name"); no field of the report is assigned. -/
theorem claim7_unsupported_name (metric_name metric_value : String) (q : ℚ)
    (r : OrcaLoadReport)
    (hpre : startsWithChars "named_metrics.".data metric_name.data = false)
    (h1 : metric_name ≠ "cpu_utilization")
    (h2 : metric_name ≠ "mem_utilization")
    (h3 : metric_name ≠ "application_utilization")
    (h4 : metric_name ≠ "eps")
    (h5 : metric_name ≠ "rps_fractional")
    (hn : metric_name ≠ "")
    (hq : safe_strtod metric_value = some q) :
    tryCopyMetricToOrcaLoadReport metric_name metric_value r =
      .error (.invalidArgument ("unsupported metric name: " ++ metric_name)) := by
  have hv : metric_value ≠ "" := ne_empty_of_safe_strtod hq
  simp only [tryCopyMetricToOrcaLoadReport]
  rw [if_neg hn, if_neg hv, hq]
  simp only [hpre, Bool.false_eq_true, if_false, if_neg h1, if_neg h2, if_neg h3,
    if_neg h4, if_neg h5]

/-- Claim C7, witness: `"unknown_field:1.0"`. -/
theorem claim7_unsupported_name_witness :
    tryCopyMetricToOrcaLoadReport "unknown_field" "1.0" {} =
      .error (.invalidArgument "unsupported metric name: unknown_field") :=
  claim7_unsupported_name "unknown_field" "1.0" (mkRat 10 10) {}
    (by decide) (by decide) (by decide) (by decide) (by decide) (by decide)
    (by decide) rfl

/-! ### Claim C3: duplicate detection in the plain-text path -/

lemma goTokens_append (xs ys : List String) (seen : List String) (r : OrcaLoadReport) :
    goTokens (xs ++ ys) seen r =
      (match goTokens xs seen r with
       | .error e => .error e
       | .ok sr => goTokens ys sr.1 sr.2) := by
  induction xs generalizing seen r with
  | nil => simp [goTokens]
  | cons v vs ih =>
    simp only [List.cons_append, goTokens]
    by_cases hdup : (splitColonEntry v).1 ∈ seen
    · rw [if_pos hdup, if_pos hdup]
    · rw [if_neg hdup, if_neg hdup]
      cases htc : tryCopyMetricToOrcaLoadReport (splitColonEntry v).1 (splitColonEntry v).2 r with
      | error e => rfl
      | ok r2 => exact ih _ _

lemma goTokens_ok_seen (xs : List String) (seen : List String) (r : OrcaLoadReport)
    (sr : List String × OrcaLoadReport) (h : goTokens xs seen r = .ok sr) :
    sr.1 = (xs.map (fun v => (splitColonEntry v).1)).reverse ++ seen := by
  induction xs generalizing seen r with
  | nil =>
    simp only [goTokens] at h
    cases h
    simp
  | cons v vs ih =>
    simp only [goTokens] at h
    by_cases hdup : (splitColonEntry v).1 ∈ seen
    · rw [if_pos hdup] at h
      exact Except.noConfusion h
    · rw [if_neg hdup] at h
      cases htc : tryCopyMetricToOrcaLoadReport (splitColonEntry v).1 (splitColonEntry v).2 r with
      | error e =>
        rw [htc] at h
        exact Except.noConfusion h
      | ok r2 =>
        rw [htc] at h
        have hs := ih _ _ h
        simp [hs]

/-- Claim C3, counterexample: with
`"cpu_utilization:abc,cpu_utilization:0.2"` the metric name
`cpu_utilization` occurs twice in the flattened token sequence, yet
decoding fails with `InvalidArgument` (the first occurrence's value is
unparsable, which stops the scan before the duplicate is reached), not with
`AlreadyExists` as the claim states. -/
theorem claim3_counterexample :
    tryParseNativeHttpEncoded ["cpu_utilization:abc,cpu_utilization:0.2"] {} =
      .error (.invalidArgument
        "unable to parse custom backend load metric value({}): cpu_utilizationabc") ∧
    tryParseNativeHttpEncoded ["cpu_utilization:abc,cpu_utilization:0.2"] {} ≠
      .error (.alreadyExists
        "x-endpoint-load-metrics contains duplicate metric: cpu_utilization") := by
  exact ⟨rfl, by decide⟩

/-- Claim C3 (amended): if a metric name occurs more than once in the
flattened token sequence AND every token before the duplicate occurrence
was processed successfully, decoding fails with `AlreadyExists` naming the
offending metric and the source header key; the duplicate is detected
before any assignment of that occurrence, so it never overwrites a
previously assigned value. -/
theorem claim3_amended (header vs1 : List String) (v : String) (vs2 : List String)
    (r : OrcaLoadReport) (sr : List String × OrcaLoadReport)
    (hsplit : parseCommaDelimitedHeader header = vs1 ++ v :: vs2)
    (hok : goTokens vs1 [] r = .ok sr)
    (hdup : (splitColonEntry v).1 ∈ vs1.map (fun w => (splitColonEntry w).1)) :
    tryParseNativeHttpEncoded header r =
      .error (.alreadyExists
        (kEndpointLoadMetricsHeader ++ " contains duplicate metric: "
          ++ (splitColonEntry v).1)) := by
  have hne : header.isEmpty = false := by
    cases header with
    | nil =>
      exfalso
      have hnil : ([] : List String) = vs1 ++ v :: vs2 := hsplit
      simp at hnil
    | cons a l => rfl
  have hmem : (splitColonEntry v).1 ∈ sr.1 := by
    rw [goTokens_ok_seen vs1 [] r sr hok, List.append_nil]
    exact List.mem_reverse.mpr hdup
  have hstep : goTokens (v :: vs2) sr.1 sr.2 =
      .error (.alreadyExists
        (kEndpointLoadMetricsHeader ++ " contains duplicate metric: "
          ++ (splitColonEntry v).1)) := by
    simp only [goTokens]
    rw [if_pos hmem]
  unfold tryParseNativeHttpEncoded
  rw [hne]
  simp only [Bool.false_eq_true, if_false]
  rw [hsplit, goTokens_append, hok]
  show (match goTokens (v :: vs2) sr.1 sr.2 with
        | Except.error e => Except.error e
        | Except.ok sr => Except.ok sr.2) = _
  rw [hstep]

/-- Claim C3 (amended), witness:
`"cpu_utilization:0.1,cpu_utilization:0.2"` → `AlreadyExists`. -/
theorem claim3_amended_witness :
    tryParseNativeHttpEncoded ["cpu_utilization:0.1,cpu_utilization:0.2"] {} =
      .error (.alreadyExists
        "x-endpoint-load-metrics contains duplicate metric: cpu_utilization") :=
  (claim3_amended ["cpu_utilization:0.1,cpu_utilization:0.2"]
    ["cpu_utilization:0.1"] "cpu_utilization:0.2" [] {}
    (["cpu_utilization"], { cpu_utilization := mkRat 1 10 })
    (by decide) (by decide) (by decide)).trans (by decide)

/-! ### Claim C9: comma tokenization across physical occurrences -/

lemma parseCommaDelimitedHeader_foldl (xs : List String) (acc : List String) :
    xs.foldl (fun values v => values ++ Http.HeaderUtility.parseCommaDelimitedHeader v) acc =
      acc ++ parseCommaDelimitedHeader xs := by
  induction xs generalizing acc with
  | nil => simp [parseCommaDelimitedHeader]
  | cons v vs ih =>
    show List.foldl _ (acc ++ Http.HeaderUtility.parseCommaDelimitedHeader v) vs =
      acc ++ parseCommaDelimitedHeader (v :: vs)
    rw [ih]
    have hcons : parseCommaDelimitedHeader (v :: vs) =
        Http.HeaderUtility.parseCommaDelimitedHeader v ++ parseCommaDelimitedHeader vs := by
      show List.foldl _ ([] ++ Http.HeaderUtility.parseCommaDelimitedHeader v) vs = _
      rw [List.nil_append, ih]
    rw [hcons, List.append_assoc]

lemma dropWhile_head_false {p : Char → Bool} {l : List Char} {x : Char}
    (h : (l.dropWhile p).head? = some x) : p x = false := by
  induction l with
  | nil => simp [List.dropWhile] at h
  | cons a l ih =>
    by_cases hpa : p a
    · rw [List.dropWhile_cons_of_pos hpa] at h
      exact ih h
    · rw [List.dropWhile_cons_of_neg hpa] at h
      simp only [List.head?_cons, Option.some.injEq] at h
      rw [← h]
      exact Bool.eq_false_iff.mpr hpa

lemma dropWhile_eq_self_of_head {p : Char → Bool} {l : List Char}
    (h : ∀ x, l.head? = some x → p x = false) : l.dropWhile p = l := by
  cases l with
  | nil => rfl
  | cons a l =>
    have ha := h a rfl
    rw [List.dropWhile_cons_of_neg (by rw [ha]; exact Bool.false_ne_true)]

lemma dropWhile_idem (p : Char → Bool) (l : List Char) :
    (l.dropWhile p).dropWhile p = l.dropWhile p :=
  dropWhile_eq_self_of_head (fun _ hx => dropWhile_head_false hx)

lemma trimAscii_idem (l : List Char) : trimAscii (trimAscii l) = trimAscii l := by
  unfold trimAscii
  have h1 : (((l.dropWhile isAsciiSpace).reverse.dropWhile isAsciiSpace).reverse).dropWhile
      isAsciiSpace =
      ((l.dropWhile isAsciiSpace).reverse.dropWhile isAsciiSpace).reverse := by
    apply dropWhile_eq_self_of_head
    intro x hx
    have hAeq : l.dropWhile isAsciiSpace =
        ((l.dropWhile isAsciiSpace).reverse.dropWhile isAsciiSpace).reverse ++
          ((l.dropWhile isAsciiSpace).reverse.takeWhile isAsciiSpace).reverse := by
      conv_lhs => rw [← List.reverse_reverse (l.dropWhile isAsciiSpace),
        ← List.takeWhile_append_dropWhile (p := isAsciiSpace)
          (l := (l.dropWhile isAsciiSpace).reverse)]
      rw [List.reverse_append]
    have hxA : (l.dropWhile isAsciiSpace).head? = some x := by
      rw [hAeq]
      cases hBr : ((l.dropWhile isAsciiSpace).reverse.dropWhile isAsciiSpace).reverse with
      | nil => rw [hBr] at hx; exact Option.noConfusion hx
      | cons c cs =>
        rw [hBr] at hx
        simp only [List.head?_cons, Option.some.injEq] at hx
        rw [List.cons_append, List.head?_cons, hx]
    exact dropWhile_head_false hxA
  rw [h1, List.reverse_reverse, dropWhile_idem]

/-- Claim C9: the decoder's token sequence is the in-order concatenation of
the tokens of each physical occurrence of the plain-text key (so order is
preserved across occurrences); a single occurrence contributes exactly the
spec's comma split of its value, and every emitted token is non-empty and
already whitespace-trimmed. -/
theorem claim9_flatten_preserves_order :
    (∀ xs ys : List String,
      parseCommaDelimitedHeader (xs ++ ys) =
        parseCommaDelimitedHeader xs ++ parseCommaDelimitedHeader ys) ∧
    (∀ v : String,
      parseCommaDelimitedHeader [v] = Http.HeaderUtility.parseCommaDelimitedHeader v) ∧
    (∀ v t : String, t ∈ Http.HeaderUtility.parseCommaDelimitedHeader v →
      t ≠ "" ∧ trimAscii t.data = t.data) := by
  refine ⟨?_, ?_, ?_⟩
  · intro xs ys
    show List.foldl _ [] (xs ++ ys) = _
    rw [List.foldl_append, parseCommaDelimitedHeader_foldl]
    rfl
  · intro v
    show List.foldl _ [] [v] = _
    rw [List.foldl_cons, List.foldl_nil, List.nil_append]
  · intro v t ht
    unfold Http.HeaderUtility.parseCommaDelimitedHeader at ht
    rw [List.mem_map] at ht
    obtain ⟨cs, hcs, hmk⟩ := ht
    rw [List.mem_filter] at hcs
    obtain ⟨hmem, hne⟩ := hcs
    rw [List.mem_map] at hmem
    obtain ⟨d, _, hd⟩ := hmem
    constructor
    · intro h0
      rw [← hmk] at h0
      have hnil : cs = [] := congrArg String.data h0
      rw [hnil] at hne
      exact Bool.noConfusion hne
    · rw [← hmk]
      show trimAscii cs = cs
      rw [← hd, trimAscii_idem]

/-- Claim C9, witness: two physical occurrences flatten in order, a
singleton occurrence matches the per-value split, and the token
`"cpu_utilization:0.5"` of `" cpu_utilization:0.5 ,"` is non-empty and
trimmed. -/
theorem claim9_flatten_preserves_order_witness :
    parseCommaDelimitedHeader (["a:1, b:2"] ++ ["c:3"]) =
      parseCommaDelimitedHeader ["a:1, b:2"] ++ parseCommaDelimitedHeader ["c:3"] ∧
    parseCommaDelimitedHeader ["a:1, b:2"] =
      Http.HeaderUtility.parseCommaDelimitedHeader "a:1, b:2" ∧
    ("cpu_utilization:0.5" : String) ≠ "" ∧
    trimAscii ("cpu_utilization:0.5" : String).data = ("cpu_utilization:0.5" : String).data :=
  ⟨claim9_flatten_preserves_order.1 ["a:1, b:2"] ["c:3"],
   claim9_flatten_preserves_order.2.1 "a:1, b:2",
   claim9_flatten_preserves_order.2.2 " cpu_utilization:0.5 ," "cpu_utilization:0.5"
     (by decide)⟩

/-! ### Claim C10: JSON and binary paths use only the first occurrence -/

/-- Claim C10: when the JSON key (resp. the binary key) is the selected
encoding and has several physical occurrences, only the first occurrence's
value is decoded — the result does not depend on the remaining
occurrences. -/
theorem claim10_first_occurrence
    (jsonCodec : String → Except AbslStatus OrcaLoadReport)
    (base64Decode : String → String)
    (binDeserialize : String → Option OrcaLoadReport)
    (headers : String → List String) (v : String) (rest : List String) :
    ((headers kEndpointLoadMetricsHeader = [] ∧
      headers kEndpointLoadMetricsHeaderJson = v :: rest ∧
      headers kEndpointLoadMetricsHeaderBin = []) →
        parseOrcaLoadReportHeaders jsonCodec base64Decode binDeserialize headers =
          jsonCodec v) ∧
    ((headers kEndpointLoadMetricsHeader = [] ∧
      headers kEndpointLoadMetricsHeaderJson = [] ∧
      headers kEndpointLoadMetricsHeaderBin = v :: rest) →
        parseOrcaLoadReportHeaders jsonCodec base64Decode binDeserialize headers =
          (match binDeserialize (base64Decode v) with
           | some lr => .ok lr
           | none => .error (.invalidArgument
               ("unable to parse binaryheader to OrcaLoadReport: " ++ v)))) := by
  constructor
  · rintro ⟨h1, h2, h3⟩
    simp only [parseOrcaLoadReportHeaders, h1, h2, h3]
    simp only [List.cons_ne_nil, and_false, false_and, and_true, if_false, ne_eq,
      not_true_eq_false, not_false_eq_true, true_and, or_self, if_true, reduceIte]
    cases hjc : jsonCodec v with
    | error e => rfl
    | ok lr => rfl
  · rintro ⟨h1, h2, h3⟩
    simp only [parseOrcaLoadReportHeaders, h1, h2, h3]
    simp only [List.cons_ne_nil, and_false, false_and, and_true, if_false, ne_eq,
      not_true_eq_false, not_false_eq_true, true_and, or_self, if_true, reduceIte]

/-- Claim C10, witness: the JSON key with two occurrences decodes the first
value only. -/
theorem claim10_first_occurrence_witness :
    parseOrcaLoadReportHeaders (fun _ => .ok { eps := 1 }) (fun s => s) (fun _ => none)
      (fun k => if k = kEndpointLoadMetricsHeaderJson then ["J", "K"] else []) =
      .ok { eps := 1 } :=
  (claim10_first_occurrence (fun _ => .ok { eps := 1 }) (fun s => s) (fun _ => none)
    (fun k => if k = kEndpointLoadMetricsHeaderJson then ["J", "K"] else [])
    "J" ["K"]).1 ⟨by decide, by decide, by decide⟩

end Orca
end Envoy
